import Mathlib

/-!
Verification of the ImageCraft Lite editing engine against its specification.

The repository's visible source (`client/src/pages/image-editor.tsx`) is the UI
glue that drives the engine hook `useImageEditor`; the engine itself (documents,
filter pipeline, transforms, resize, history, export search) is not among the
visible files, so it is modelled here from the specification's component design
(sections 3-4.7 of the spec).  The UI-level handlers (toast notifications,
export-settings description) are embedded directly from `image-editor.tsx`.

All code is embedded shallowly: bitmaps are lists of rows of RGB pixels,
machine-level pixel channels are natural numbers clamped to [0, 255], fallible
operations return `Except`.
-/

/-- One RGB pixel; channels are bytes in [0, 255] (validity is tracked by
`Bitmap.Valid` rather than by the type). -/
structure Pixel where
  r : Nat
  g : Nat
  b : Nat
deriving DecidableEq, Repr

/-- A decoded raster image: a list of rows of pixels. -/
structure Bitmap where
  rows : List (List Pixel)
deriving DecidableEq, Repr

/-- Height of a bitmap: number of rows. -/
def Bitmap.height (bm : Bitmap) : Nat := bm.rows.length

/-- Width of a bitmap: length of the first row (0 when empty). -/
def Bitmap.width (bm : Bitmap) : Nat :=
  match bm.rows with
  | [] => 0
  | row :: _ => row.length

/-- A bitmap is valid when it is rectangular (every row has length `width`)
and every channel of every pixel fits in a byte. -/
def Bitmap.Valid (bm : Bitmap) : Prop :=
  ∀ row ∈ bm.rows, row.length = bm.width ∧
    ∀ p ∈ row, p.r ≤ 255 ∧ p.g ≤ 255 ∧ p.b ≤ 255

instance (bm : Bitmap) : Decidable bm.Valid := by
  unfold Bitmap.Valid; infer_instance

/-- Pixel fetched at column `x`, row `y`; black outside the bitmap. -/
def Bitmap.pixelAt (bm : Bitmap) (x y : Nat) : Pixel :=
  (bm.rows.getD y []).getD x ⟨0, 0, 0⟩

/-- The enumerated adjustable filter tools (spec section 3, FilterSettings). -/
inductive ToolType
  | brightness
  | contrast
  | saturation
deriving DecidableEq, Repr

/-- Modelled from the spec: `FilterSettings` is a total mapping from the
enumerated filter names to an integer value in [0,100], default 50 (neutral);
the engine file holding it is not among the visible sources. -/
structure FilterSettings where
  brightness : Nat
  contrast : Nat
  saturation : Nat
deriving DecidableEq, Repr

/-- All filters at the neutral value 50. -/
def neutralFilters : FilterSettings := ⟨50, 50, 50⟩

/-- Read one filter's value. -/
def FilterSettings.get (fs : FilterSettings) : ToolType → Nat
  | ToolType.brightness => fs.brightness
  | ToolType.contrast => fs.contrast
  | ToolType.saturation => fs.saturation

/-- Update one filter's value. -/
def FilterSettings.set (fs : FilterSettings) : ToolType → Nat → FilterSettings
  | ToolType.brightness, v => { fs with brightness := v }
  | ToolType.contrast, v => { fs with contrast := v }
  | ToolType.saturation, v => { fs with saturation := v }

/-- Clamp an integer channel value back into the byte range (spec 4.2: each
transfer function clamps output to the valid integer range of the pixel
format). -/
def clampByte (i : Int) : Nat := (max 0 (min i 255)).toNat

/-- Modelled from the spec: brightness transfer at value `v` in [0,100],
centered so that 50 is a no-op; shifts every channel by a delta proportional
to `v - 50`. -/
def brightnessChannel (v : Nat) (c : Nat) : Nat :=
  clampByte ((c : Int) + ((v : Int) - 50) * 255 / 50)

/-- Modelled from the spec: contrast transfer at value `v` in [0,100],
centered so that 50 is a no-op; scales the deviation from mid-gray by
`v / 50`. -/
def contrastChannel (v : Nat) (c : Nat) : Nat :=
  clampByte (((c : Int) - 128) * (v : Int) / 50 + 128)

/-- Modelled from the spec: saturation transfer at value `v` in [0,100],
centered so that 50 is a no-op; scales the deviation of each channel from the
pixel's gray average by `v / 50`. -/
def saturatePixel (v : Nat) (p : Pixel) : Pixel :=
  let gray : Int := ((p.r : Int) + p.g + p.b) / 3
  { r := clampByte (gray + ((p.r : Int) - gray) * (v : Int) / 50)
    g := clampByte (gray + ((p.g : Int) - gray) * (v : Int) / 50)
    b := clampByte (gray + ((p.b : Int) - gray) * (v : Int) / 50) }

/-- Apply brightness to a whole pixel. -/
def brightenPixel (v : Nat) (p : Pixel) : Pixel :=
  ⟨brightnessChannel v p.r, brightnessChannel v p.g, brightnessChannel v p.b⟩

/-- Apply contrast to a whole pixel. -/
def contrastPixel (v : Nat) (p : Pixel) : Pixel :=
  ⟨contrastChannel v p.r, contrastChannel v p.g, contrastChannel v p.b⟩

/-- The fixed, documented filter order of spec 4.2:
brightness, then contrast, then saturation. -/
def applyPixelFilters (fs : FilterSettings) (p : Pixel) : Pixel :=
  saturatePixel fs.saturation (contrastPixel fs.contrast (brightenPixel fs.brightness p))

/-- Modelled from the spec: `applyFilters(sourceBitmap, FilterSettings)` is a
pure function producing a new bitmap; it maps the per-pixel transfer chain in
the fixed order over every pixel and never mutates its argument (purity is
by construction in this functional embedding). -/
def applyFilters (bm : Bitmap) (fs : FilterSettings) : Bitmap :=
  ⟨bm.rows.map (fun row => row.map (applyPixelFilters fs))⟩

/-- The discrete geometric operations (spec section 3, TransformOperation). -/
inductive TransformOperation
  | rotateLeft
  | rotateRight
  | flipHorizontal
  | flipVertical
deriving DecidableEq, Repr

/-- Transpose a list of rows by index arithmetic: entry `(x, y)` of the result
is entry `(y, x)` of the input. -/
def transposeRows (rows : List (List Pixel)) : List (List Pixel) :=
  (List.range (rows.headD []).length).map (fun x =>
    (List.range rows.length).map (fun y => (rows.getD y []).getD x ⟨0, 0, 0⟩))

/-- Modelled from the spec: `applyTransform(bitmap, op)`: exact 90-degree
rotations (width/height swap) and axis mirrors. -/
def applyTransform (bm : Bitmap) : TransformOperation → Bitmap
  | TransformOperation.rotateRight => ⟨(transposeRows bm.rows).map List.reverse⟩
  | TransformOperation.rotateLeft => ⟨(transposeRows (bm.rows.map List.reverse))⟩
  | TransformOperation.flipHorizontal => ⟨bm.rows.map List.reverse⟩
  | TransformOperation.flipVertical => ⟨bm.rows.reverse⟩

/-- Re-apply an ordered transform sequence in order (spec 4.3: transforms are
appended to an ordered sequence and re-applied in sequence order on every
re-render). -/
def applyTransforms (bm : Bitmap) (ts : List TransformOperation) : Bitmap :=
  ts.foldl applyTransform bm

/-- Unit of the requested resize dimensions (spec section 3, ResizeSettings). -/
inductive SizeUnit
  | pixel
  | percent
deriving DecidableEq, Repr

/-- Modelled from the spec: `ResizeSettings` with target width/height, aspect
lock flag and unit; the engine file holding it is not among the visible
sources. -/
structure ResizeSettings where
  width : Nat
  height : Nat
  maintainAspectRatio : Bool
  unit : SizeUnit
deriving DecidableEq, Repr

/-- Distance between two naturals. -/
def natDist (a b : Nat) : Nat := max a b - min a b

/-- Modelled from the spec: resolve `ResizeSettings` to target pixel
dimensions against source dimensions `srcW`/`srcH`.  Percent units scale the
source; with the aspect lock the driving dimension is the one with the larger
requested change and the other is derived from the source aspect ratio by
rounding. -/
def resolveResize (rs : ResizeSettings) (srcW srcH : Nat) : Nat × Nat :=
  let base : Nat × Nat :=
    match rs.unit with
    | SizeUnit.pixel => (rs.width, rs.height)
    | SizeUnit.percent => (srcW * rs.width / 100, srcH * rs.height / 100)
  if rs.maintainAspectRatio then
    if natDist base.2 srcH ≤ natDist base.1 srcW then
      (base.1, if srcW = 0 then base.2 else (base.1 * srcH + srcW / 2) / srcW)
    else
      (if srcH = 0 then base.1 else (base.2 * srcW + srcH / 2) / srcH, base.2)
  else base

/-- Modelled from the spec: `applyResize(bitmap, ResizeSettings)` produces a
bitmap of exactly the resolved target dimensions by sampling the source
(the spec's interpolation quality is abstracted to coordinate sampling; no
claim depends on interpolated pixel values). -/
def resizeBitmap (bm : Bitmap) (rs : ResizeSettings) : Bitmap :=
  let t := resolveResize rs bm.width bm.height
  ⟨(List.range t.2).map (fun y =>
    (List.range t.1).map (fun x =>
      bm.pixelAt (x * bm.width / t.1) (y * bm.height / t.2)))⟩

/-- The declarative render pipeline of spec 4.3: the final bitmap is always
recomputed as `resize(transform-sequence(filters(originalBitmap)))`, never by
mutating a running buffer in place. -/
def renderPipeline (orig : Bitmap) (fs : FilterSettings) (ts : List TransformOperation)
    (rs : ResizeSettings) : Bitmap :=
  resizeBitmap (applyTransforms (applyFilters orig fs) ts) rs

/-- A named, fixed target dimension pair (spec section 3, SocialMediaPreset). -/
structure SocialMediaPreset where
  name : String
  width : Nat
  height : Nat
deriving DecidableEq, Repr

/-- Modelled from the spec: the static, read-only preset lookup table
(`socialMediaPresets`); the spec fixes the "Instagram Post" entry at
1080 by 1080, the remaining entries are common social-media dimensions. -/
def socialMediaPresets : List SocialMediaPreset :=
  [⟨"Instagram Post", 1080, 1080⟩,
   ⟨"Instagram Story", 1080, 1920⟩,
   ⟨"Facebook Post", 1200, 630⟩,
   ⟨"Twitter Post", 1200, 675⟩,
   ⟨"YouTube Thumbnail", 1280, 720⟩]

/-- Look a preset up by its unique name key. -/
def lookupPreset (name : String) : Option SocialMediaPreset :=
  socialMediaPresets.find? (fun p => p.name = name)

/-- Export encoding format (spec section 3, ExportSettings). -/
inductive ExportFormat
  | png
  | jpeg
  | webp
deriving DecidableEq, Repr

/-- Unit of the optional target file size. -/
inductive FileSizeUnit
  | kb
  | mb
deriving DecidableEq, Repr

/-- Modelled from the spec: `ExportSettings`; `targetFileSize` is optional
(`none` when unset). -/
structure ExportSettings where
  format : ExportFormat
  quality : Nat
  targetFileSize : Option Nat
  fileSizeUnit : FileSizeUnit
deriving DecidableEq, Repr

/-- Whether a format is lossy (quality-searchable). -/
def ExportFormat.isLossy : ExportFormat → Bool
  | ExportFormat.jpeg => true
  | ExportFormat.webp => true
  | ExportFormat.png => false

/-- Convert a target size in the given unit to bytes. -/
def toBytes (n : Nat) (u : FileSizeUnit) : Nat :=
  match u with
  | FileSizeUnit.kb => n * 1024
  | FileSizeUnit.mb => n * 1024 * 1024

/-- The fixed tolerance band of the export search: within plus or minus 10
percent of the target byte length. -/
def withinTolerance (size target : Nat) : Bool :=
  10 * natDist size target ≤ target

/-- The fixed maximum number of encode attempts bounding the quality search
(enough for the bisection of [1, 100]). -/
def maxEncodeAttempts : Nat := 8

/-- Keep whichever of a fresh encode and the best-so-far is closest to the
target byte length. -/
def closerAttempt (target : Nat) (fresh : Nat × Nat) : Option (Nat × Nat) → Nat × Nat
  | none => fresh
  | some b => if natDist fresh.2 target ≤ natDist b.2 target then fresh else b

/-- Modelled from the spec: the bounded bisection of encoder quality.  `enc`
abstracts the encoder as a map from quality to encoded byte length.  Each step
encodes at the midpoint quality, returns it if within tolerance, otherwise
narrows toward smaller quality when oversized and larger when undersized,
tracking the closest attempt seen; fuel bounds the number of encodes.  Returns
the chosen `(quality, size)` (or `none` if no encode happened) and the list of
attempted qualities. -/
def searchQuality (enc : Nat → Nat) (target : Nat) :
    Nat → Nat → Nat → Option (Nat × Nat) → List Nat → Option (Nat × Nat) × List Nat
  | 0, _, _, best, tried => (best, tried)
  | fuel + 1, lo, hi, best, tried =>
      if lo > hi then (best, tried)
      else
        let mid := (lo + hi) / 2
        let size := enc mid
        let tried' := tried ++ [mid]
        let best' := some (closerAttempt target (mid, size) best)
        if withinTolerance size target then (some (mid, size), tried')
        else if size > target then
          searchQuality enc target fuel lo (mid - 1) best' tried'
        else
          searchQuality enc target fuel (mid + 1) hi best' tried'

/-- Result of `applyExportSettings`: the encoded output is abstracted by its
byte length; `warning` is the `TargetSizeUnmetWarning` flag, `tried` the list
of attempted qualities. -/
structure ExportResult where
  size : Nat
  quality : Nat
  warning : Bool
  tried : List Nat
deriving DecidableEq, Repr

/-- Modelled from the spec: `applyExportSettings(bitmap, ExportSettings)`.
`enc` abstracts the encoder (quality to encoded byte length) for the bitmap
being exported.  With no target size, encode once at the stored quality; with
a target size on a lossy format, run the bounded quality bisection and flag a
`TargetSizeUnmetWarning` when the chosen output misses the tolerance band; a
lossless format ignores the target (advisory only). -/
def applyExportSettings (enc : Nat → Nat) (es : ExportSettings) : ExportResult :=
  match es.targetFileSize with
  | none => ⟨enc es.quality, es.quality, false, [es.quality]⟩
  | some t =>
      if es.format.isLossy then
        let target := toBytes t es.fileSizeUnit
        match searchQuality enc target maxEncodeAttempts 1 100 none [] with
        | (some (q, sz), tried) => ⟨sz, q, ! withinTolerance sz target, tried⟩
        | (none, _) => ⟨enc es.quality, es.quality, true, [es.quality]⟩
      else ⟨enc es.quality, es.quality, false, [es.quality]⟩

/-- Modelled from the spec: `ImageDocument` owns the decoded original bitmap
and the derived current bitmap. -/
structure ImageDocument where
  originalBitmap : Bitmap
  currentBitmap : Bitmap
deriving DecidableEq, Repr

/-- Modelled from the spec: `HistorySnapshot` captures the editable settings
and a reference to the bitmap state at this point. -/
structure HistorySnapshot where
  filters : FilterSettings
  transforms : List TransformOperation
  resize : ResizeSettings
  bitmapRef : Bitmap
deriving DecidableEq, Repr

/-- The typed recoverable failures of spec section 7. -/
inductive EditorError
  | decodeError
  | noDocument
  | unknownPreset
  | operationInProgress
  | encodeError
deriving DecidableEq, Repr

/-- Modelled from the spec: the `EditSession` state (spec section 3); the
caller-owned Surface is outside the state. -/
structure SessionState where
  document : Option ImageDocument
  filters : FilterSettings
  transforms : List TransformOperation
  resizeSettings : ResizeSettings
  exportSettings : ExportSettings
  history : List HistorySnapshot
  historyCursor : Nat
  selectedTool : Option ToolType
  isProcessing : Bool
deriving DecidableEq, Repr

/-- Modelled from the spec (4.5): `commit(snapshot)` truncates the sequence
after the cursor, appends the snapshot, and advances the cursor to the new
end. -/
def commitSnapshot (hist : List HistorySnapshot) (c : Nat) (snap : HistorySnapshot) :
    List HistorySnapshot × Nat :=
  let hist' := hist.take (c + 1) ++ [snap]
  (hist', hist'.length - 1)

/-- Spec 4.5: `canUndo = c > 0`. -/
def SessionState.canUndo (s : SessionState) : Bool := s.historyCursor > 0

/-- Spec 4.5: `canRedo = c < sequence.length - 1`. -/
def SessionState.canRedo (s : SessionState) : Bool :=
  s.historyCursor < s.history.length - 1

/-- Replace a document's derived current bitmap. -/
def setCurrent (b : Bitmap) (d : ImageDocument) : ImageDocument :=
  { d with currentBitmap := b }

/-- Restore the session to the snapshot at history index `i` (no-op when the
index is out of range); the current bitmap becomes the snapshot's bitmap
reference. -/
def restoreAt (s : SessionState) (i : Nat) : SessionState :=
  match s.history[i]? with
  | none => s
  | some snap =>
      { s with
        filters := snap.filters
        transforms := snap.transforms
        resizeSettings := snap.resize
        document := s.document.map (setCurrent snap.bitmapRef)
        historyCursor := i }

/-- Modelled from the spec (4.5): `undo()` is a no-op at cursor 0, otherwise
decrements the cursor and restores the state there. -/
def undo (s : SessionState) : SessionState :=
  if s.historyCursor = 0 then s else restoreAt s (s.historyCursor - 1)

/-- Modelled from the spec (4.5): `redo()` is a no-op at the end of the
sequence, otherwise increments the cursor and restores the state there. -/
def redo (s : SessionState) : SessionState :=
  if s.historyCursor = s.history.length - 1 then s
  else restoreAt s (s.historyCursor + 1)

/-- Native-dimension resize settings for a freshly loaded bitmap. -/
def nativeResize (bm : Bitmap) : ResizeSettings :=
  ⟨bm.width, bm.height, false, SizeUnit.pixel⟩

/-- Default export settings of a fresh session. -/
def defaultExportSettings : ExportSettings :=
  ⟨ExportFormat.png, 80, none, FileSizeUnit.kb⟩

/-- Modelled from the spec (4.1): a successful `loadImage` sets
`originalBitmap = currentBitmap = decoded`, clears history to a single
initial snapshot, resets filters to neutral, transforms to empty and resize
to native dimensions. -/
def loadImage (bm : Bitmap) : SessionState :=
  { document := some ⟨bm, bm⟩
    filters := neutralFilters
    transforms := []
    resizeSettings := nativeResize bm
    exportSettings := defaultExportSettings
    history := [⟨neutralFilters, [], nativeResize bm, bm⟩]
    historyCursor := 0
    selectedTool := none
    isProcessing := false }

/-- The mutating operations of spec 4.5 (filter change, transform, resize,
preset, reset), each of which must commit exactly once on success. -/
inductive MutOp
  | updateFilter (tool : ToolType) (value : Nat)
  | applyTransformOp (op : TransformOperation)
  | applyResize
  | applySocialMediaPreset (name : String)
  | resetFilters
deriving DecidableEq, Repr

/-- Install new settings, re-render the current bitmap from the immutable
original through the declarative pipeline, and commit one snapshot of the
result (spec 4.3, 4.5, 5). -/
def commitAndRender (s : SessionState) (doc : ImageDocument) (fs : FilterSettings)
    (ts : List TransformOperation) (rs : ResizeSettings) : SessionState :=
  let bm := renderPipeline doc.originalBitmap fs ts rs
  let hc := commitSnapshot s.history s.historyCursor ⟨fs, ts, rs, bm⟩
  { s with
    document := some { doc with currentBitmap := bm }
    filters := fs
    transforms := ts
    resizeSettings := rs
    history := hc.1
    historyCursor := hc.2 }

/-- Modelled from the spec (4.5, 4.7, section 7): dispatch one mutating
operation.  Calls while `isProcessing` are rejected with
`OperationInProgressError`; calls with no document fail with
`NoDocumentError`; an unknown preset name fails with `UnknownPresetError`;
a successful operation installs its settings and commits exactly once. -/
def mutStep (s : SessionState) (op : MutOp) : Except EditorError SessionState :=
  if s.isProcessing then Except.error EditorError.operationInProgress
  else
    match s.document with
    | none => Except.error EditorError.noDocument
    | some doc =>
        match op with
        | MutOp.updateFilter tool v =>
            Except.ok (commitAndRender s doc (s.filters.set tool v) s.transforms s.resizeSettings)
        | MutOp.applyTransformOp t =>
            Except.ok (commitAndRender s doc s.filters (s.transforms ++ [t]) s.resizeSettings)
        | MutOp.applyResize =>
            Except.ok (commitAndRender s doc s.filters s.transforms s.resizeSettings)
        | MutOp.applySocialMediaPreset name =>
            match lookupPreset name with
            | none => Except.error EditorError.unknownPreset
            | some p =>
                Except.ok (commitAndRender s doc s.filters s.transforms
                  ⟨p.width, p.height, false, SizeUnit.pixel⟩)
        | MutOp.resetFilters =>
            Except.ok (commitAndRender s doc neutralFilters s.transforms s.resizeSettings)

/-- Run one mutating operation; a failed operation leaves the state exactly
as it was (spec section 7, local recovery). -/
def runMut (s : SessionState) (op : MutOp) : SessionState :=
  match mutStep s op with
  | Except.ok s' => s'
  | Except.error _ => s

/-- Any operation of an edit session that touches the session state:
a mutating operation, undo, redo or tool selection. -/
inductive SessionOp
  | mutate (m : MutOp)
  | undoOp
  | redoOp
  | selectTool (t : Option ToolType)
deriving DecidableEq, Repr

/-- Run one session operation (spec 4.7: `selectTool` only changes which
filter is exposed for editing and commits nothing). -/
def runOp (s : SessionState) (op : SessionOp) : SessionState :=
  match op with
  | SessionOp.mutate m => runMut s m
  | SessionOp.undoOp => undo s
  | SessionOp.redoOp => redo s
  | SessionOp.selectTool t => { s with selectedTool := t }

/-- Run a list of session operations in call order. -/
def runOps (s : SessionState) (ops : List SessionOp) : SessionState :=
  ops.foldl runOp s

/-- Run a list of mutating operations in call order. -/
def runMuts (s : SessionState) (ops : List MutOp) : SessionState :=
  ops.foldl runMut s

/-- Iterate undo. -/
def undoK (k : Nat) (s : SessionState) : SessionState := Nat.rec s (fun _ t => undo t) k

/-- Iterate redo. -/
def redoK (k : Nat) (s : SessionState) : SessionState := Nat.rec s (fun _ t => redo t) k

/-- One fragment of the export-settings toast description built by
`handleApplyExportSettings` in `image-editor.tsx`: the unconditional format
part, the quality part and the target-size part. -/
inductive DescPart
  | format (f : ExportFormat)
  | quality (q : Nat)
  | targetSize (n : Nat) (u : FileSizeUnit)
deriving DecidableEq, Repr

/-- JavaScript truthiness of the optional numeric `targetFileSize` field:
`undefined` and `0` are falsy. -/
def targetSizeTruthy : Option Nat → Bool
  | none => false
  | some n => n ≠ 0

/-- Embedded from `image-editor.tsx`, `handleApplyExportSettings`: the
description starts with the format, appends the quality exactly when the
format is `jpeg`, and appends the target size exactly when `targetFileSize`
is truthy. -/
def exportDescriptionParts (es : ExportSettings) : List DescPart :=
  [DescPart.format es.format]
    ++ (if es.format = ExportFormat.jpeg then [DescPart.quality es.quality] else [])
    ++ (if targetSizeTruthy es.targetFileSize
        then [DescPart.targetSize (es.targetFileSize.getD 0) es.fileSizeUnit]
        else [])

/-- A toast notification as issued by the page component. -/
structure Toast where
  title : String
  description : String
  destructive : Bool
deriving DecidableEq, Repr

/-- Display name of a transform operation as the UI passes it. -/
def transformOpName : TransformOperation → String
  | TransformOperation.rotateLeft => "rotate-left"
  | TransformOperation.rotateRight => "rotate-right"
  | TransformOperation.flipHorizontal => "flip-horizontal"
  | TransformOperation.flipVertical => "flip-vertical"

/-- Embedded from `image-editor.tsx`, `handleUndo`: call `undo()` and then
toast "Undone" unconditionally. -/
def handleUndo (s : SessionState) : SessionState × Toast :=
  (undo s, ⟨"Undone", "Reverted to previous state", false⟩)

/-- Embedded from `image-editor.tsx`, `handleRedo`: call `redo()` and then
toast "Redone" unconditionally. -/
def handleRedo (s : SessionState) : SessionState × Toast :=
  (redo s, ⟨"Redone", "Applied next state", false⟩)

/-- Embedded from `image-editor.tsx`, `handleTransform`: call
`applyTransform(operation)` and then toast "Transform applied"
unconditionally. -/
def handleTransform (s : SessionState) (op : TransformOperation) : SessionState × Toast :=
  (runMut s (MutOp.applyTransformOp op),
   ⟨"Transform applied", "Applied " ++ transformOpName op ++ " transformation", false⟩)

/-- Clamping a byte-ranged natural is the identity. -/
theorem clampByte_coe (c : Nat) (h : c ≤ 255) : clampByte (c : Int) = c := by
  unfold clampByte; omega

/-- A map whose function fixes every member of the list is the identity. -/
theorem map_eq_self {α : Type} (l : List α) (f : α → α) (h : ∀ a ∈ l, f a = a) :
    l.map f = l := by
  induction l with
  | nil => rfl
  | cons a t ih =>
      simp only [List.map_cons]
      rw [h a (by simp), ih (fun x hx => h x (by simp [hx]))]

/-- Brightness at the neutral value 50 fixes a byte channel. -/
theorem brightnessChannel_neutral (c : Nat) (h : c ≤ 255) : brightnessChannel 50 c = c := by
  unfold brightnessChannel clampByte; omega

/-- Contrast at the neutral value 50 fixes a byte channel. -/
theorem contrastChannel_neutral (c : Nat) (h : c ≤ 255) : contrastChannel 50 c = c := by
  unfold contrastChannel clampByte; omega

/-- Saturation at the neutral value 50 fixes a byte pixel. -/
theorem saturatePixel_neutral (p : Pixel) (hr : p.r ≤ 255) (hg : p.g ≤ 255)
    (hb : p.b ≤ 255) : saturatePixel 50 p = p := by
  cases p with
  | mk r g b =>
      unfold saturatePixel clampByte
      simp only [Pixel.mk.injEq]
      dsimp only at hr hg hb
      push_cast
      refine ⟨by omega, by omega, by omega⟩

/-- The whole per-pixel filter chain at neutral settings fixes a byte pixel. -/
theorem applyPixelFilters_neutral (p : Pixel) (hr : p.r ≤ 255) (hg : p.g ≤ 255)
    (hb : p.b ≤ 255) : applyPixelFilters neutralFilters p = p := by
  unfold applyPixelFilters neutralFilters
  have h1 : brightenPixel 50 p = p := by
    unfold brightenPixel
    rw [brightnessChannel_neutral _ hr, brightnessChannel_neutral _ hg,
      brightnessChannel_neutral _ hb]
  have h2 : contrastPixel 50 p = p := by
    unfold contrastPixel
    rw [contrastChannel_neutral _ hr, contrastChannel_neutral _ hg,
      contrastChannel_neutral _ hb]
  simp only [h1, h2]
  exact saturatePixel_neutral p hr hg hb

/-- Filter pipeline neutrality on a valid bitmap: all values at 50 give back
the source bitmap pixel for pixel. -/
theorem applyFilters_neutral (bm : Bitmap) (h : bm.Valid) :
    applyFilters bm neutralFilters = bm := by
  cases bm with
  | mk rows =>
      unfold applyFilters
      congr 1
      apply map_eq_self
      intro row hrow
      apply map_eq_self
      intro p hp
      have hv := (h row hrow).2 p hp
      exact applyPixelFilters_neutral p hv.1 hv.2.1 hv.2.2

/-- Native resize settings resolve to the source dimensions. -/
theorem resolveResize_native (bm : Bitmap) :
    resolveResize (nativeResize bm) bm.width bm.height = (bm.width, bm.height) := by
  unfold resolveResize nativeResize
  simp

/-- Rebuilding a row by sampling every index is the identity. -/
theorem sample_row_id (row : List Pixel) (w : Nat) (hw : row.length = w) :
    (List.range w).map (fun x => row.getD x ⟨0, 0, 0⟩) = row := by
  apply List.ext_getElem
  · simp [hw]
  · intro i h1 h2
    simp [List.getD_eq_getElem?_getD, List.getElem?_eq_getElem h2]

/-- Resizing a rectangular bitmap to its native dimensions is the identity. -/
theorem resizeBitmap_native (bm : Bitmap)
    (hrect : ∀ row ∈ bm.rows, row.length = bm.width) :
    resizeBitmap bm (nativeResize bm) = bm := by
  have hmain : (List.range bm.height).map (fun y =>
      (List.range bm.width).map (fun x =>
        bm.pixelAt (x * bm.width / bm.width) (y * bm.height / bm.height))) = bm.rows := by
    apply List.ext_getElem
    · simp [Bitmap.height]
    · intro y h1 h2
      have hy : y * bm.height / bm.height = y := by
        have hpos : 0 < bm.height := Nat.lt_of_le_of_lt (Nat.zero_le y) (by
          simpa [Bitmap.height] using h2)
        exact Nat.mul_div_cancel y hpos
      simp only [List.getElem_map, List.getElem_range]
      rw [hy]
      have hrow : bm.rows.getD y [] = bm.rows[y] := by
        simp [List.getD_eq_getElem?_getD, List.getElem?_eq_getElem h2]
      have hlen : bm.rows[y].length = bm.width :=
        (hrect bm.rows[y] (List.getElem_mem h2))
      calc (List.range bm.width).map
            (fun x => bm.pixelAt (x * bm.width / bm.width) y)
          = (List.range bm.width).map (fun x => bm.rows[y].getD x ⟨0, 0, 0⟩) := by
            apply List.map_congr_left
            intro x hxm
            have hxw := List.mem_range.mp hxm
            have hxq : x * bm.width / bm.width = x :=
              Nat.mul_div_cancel x (Nat.lt_of_le_of_lt (Nat.zero_le x) hxw)
            unfold Bitmap.pixelAt
            rw [hxq, hrow]
        _ = bm.rows[y] := sample_row_id bm.rows[y] bm.width hlen
  simp only [resizeBitmap]
  rw [resolveResize_native]
  cases bm with
  | mk rows => exact congrArg Bitmap.mk (by simpa using hmain)

/-- Rendering through the whole pipeline at the post-load defaults (neutral
filters, no transforms, native resize) gives back the loaded bitmap. -/
theorem renderPipeline_default (bm : Bitmap) (h : bm.Valid) :
    renderPipeline bm neutralFilters [] (nativeResize bm) = bm := by
  unfold renderPipeline applyTransforms
  simp only [List.foldl_nil]
  rw [applyFilters_neutral bm h]
  exact resizeBitmap_native bm (fun row hr => (h row hr).1)

/-- Unfolding equation of `restoreAt` at a missing index. -/
theorem restoreAt_none (s : SessionState) (i : Nat) (h : s.history[i]? = none) :
    restoreAt s i = s := by
  unfold restoreAt
  rw [h]

/-- Unfolding equation of `restoreAt` at a present index. -/
theorem restoreAt_some (s : SessionState) (i : Nat) (snap : HistorySnapshot)
    (h : s.history[i]? = some snap) :
    restoreAt s i =
      { s with
        filters := snap.filters
        transforms := snap.transforms
        resizeSettings := snap.resize
        document := s.document.map (setCurrent snap.bitmapRef)
        historyCursor := i } := by
  unfold restoreAt
  rw [h]

/-- Restoring never changes the history sequence itself. -/
theorem restoreAt_history (s : SessionState) (i : Nat) :
    (restoreAt s i).history = s.history := by
  cases h : s.history[i]? with
  | none => rw [restoreAt_none s i h]
  | some snap => rw [restoreAt_some s i snap h]

/-- Restoring at a valid index moves the cursor there. -/
theorem restoreAt_cursor (s : SessionState) (i : Nat) (hi : i < s.history.length) :
    (restoreAt s i).historyCursor = i := by
  rw [restoreAt_some s i _ (List.getElem?_eq_getElem hi)]

/-- Two restores collapse to the last one (a restore only overwrites the
restored fields from the unchanged history). -/
theorem restoreAt_restoreAt (s : SessionState) (i j : Nat)
    (hj : j < s.history.length) :
    restoreAt (restoreAt s i) j = restoreAt s j := by
  cases hgi : s.history[i]? with
  | none => rw [restoreAt_none s i hgi]
  | some snapi =>
      rw [restoreAt_some s i snapi hgi]
      rw [restoreAt_some _ j s.history[j]
        (by simp [List.getElem?_eq_getElem hj])]
      rw [restoreAt_some s j s.history[j] (List.getElem?_eq_getElem hj)]
      cases s.document with
      | none => rfl
      | some d => rfl

/-- The per-cursor agreement invariant: the snapshot under the cursor holds
exactly the session's live settings and the document's current bitmap. -/
def SessionState.Agrees (s : SessionState) : Prop :=
  match s.history[s.historyCursor]? with
  | none => False
  | some snap =>
      s.filters = snap.filters ∧ s.transforms = snap.transforms ∧
      s.resizeSettings = snap.resize ∧
      ∀ d, s.document = some d → d.currentBitmap = snap.bitmapRef

/-- A session is at the end of its history when the cursor points at the last
snapshot and agrees with it. -/
def SessionState.AtEnd (s : SessionState) : Prop :=
  s.historyCursor + 1 = s.history.length ∧ s.Agrees

/-- An agreeing session's cursor is in range. -/
theorem cursor_lt_of_agrees (s : SessionState) (h : s.Agrees) :
    s.historyCursor < s.history.length := by
  unfold SessionState.Agrees at h
  cases hg : s.history[s.historyCursor]? with
  | none => rw [hg] at h; exact absurd h not_false
  | some snap => exact List.getElem?_eq_some_iff.mp hg |>.1

/-- Restoring the snapshot the session already agrees with is the identity. -/
theorem restoreAt_self (s : SessionState) (h : s.Agrees) :
    restoreAt s s.historyCursor = s := by
  have hlt := cursor_lt_of_agrees s h
  unfold SessionState.Agrees at h
  rw [List.getElem?_eq_getElem hlt] at h
  obtain ⟨h1, h2, h3, h4⟩ := h
  rw [restoreAt_some s _ _ (List.getElem?_eq_getElem hlt)]
  have hdoc : s.document.map (setCurrent s.history[s.historyCursor].bitmapRef)
      = s.document := by
    cases hd : s.document with
    | none => rfl
    | some d =>
        show some (setCurrent s.history[s.historyCursor].bitmapRef d) = some d
        rw [show setCurrent s.history[s.historyCursor].bitmapRef d = d from by
          unfold setCurrent
          rw [← h4 d hd]]
  rw [← h1, ← h2, ← h3, hdoc]

/-- Restoring at a valid index re-establishes agreement. -/
theorem agrees_restoreAt (s : SessionState) (i : Nat) (hi : i < s.history.length) :
    (restoreAt s i).Agrees := by
  rw [restoreAt_some s i s.history[i] (List.getElem?_eq_getElem hi)]
  unfold SessionState.Agrees
  have hg : ({ s with
      filters := s.history[i].filters
      transforms := s.history[i].transforms
      resizeSettings := s.history[i].resize
      document := s.document.map (setCurrent s.history[i].bitmapRef)
      historyCursor := i } : SessionState).history[i]? = some s.history[i] :=
    List.getElem?_eq_getElem hi
  rw [hg]
  refine ⟨rfl, rfl, rfl, ?_⟩
  intro d hd
  cases hsd : s.document with
  | none => rw [hsd] at hd; exact absurd hd (by simp)
  | some d0 =>
      rw [hsd] at hd
      have hd2 : some (setCurrent s.history[i].bitmapRef d0) = some d := hd
      injection hd2 with hd3
      rw [← hd3]
      rfl

/-- Iterated undo from an agreeing session is one restore at the decremented
cursor (saturating at the oldest snapshot). -/
theorem undoK_eq_restoreAt (s : SessionState) (h : s.Agrees) (k : Nat) :
    undoK k s = restoreAt s (s.historyCursor - k) := by
  induction k with
  | zero =>
      show s = restoreAt s (s.historyCursor - 0)
      rw [Nat.sub_zero, restoreAt_self s h]
  | succ k ih =>
      have hlt := cursor_lt_of_agrees s h
      have hik : s.historyCursor - k < s.history.length :=
        Nat.lt_of_le_of_lt (Nat.sub_le _ _) hlt
      show undo (undoK k s) = restoreAt s (s.historyCursor - (k + 1))
      rw [ih]
      unfold undo
      rw [restoreAt_cursor s _ hik]
      by_cases h0 : s.historyCursor - k = 0
      · rw [if_pos h0, h0]
        have : s.historyCursor - (k + 1) = 0 := by omega
        rw [this]
      · rw [if_neg h0]
        rw [restoreAt_restoreAt s _ _ (by omega : s.historyCursor - k - 1 < s.history.length)]
        have : s.historyCursor - k - 1 = s.historyCursor - (k + 1) := by omega
        rw [this]

/-- Iterated redo from a restored index of an at-the-end session climbs back
toward the final cursor (saturating there). -/
theorem redoK_eq_restoreAt (s : SessionState) (h : s.Agrees)
    (hend : s.historyCursor + 1 = s.history.length) (k j : Nat)
    (hj : j ≤ s.historyCursor) :
    redoK k (restoreAt s j) = restoreAt s (min (j + k) s.historyCursor) := by
  have hlt := cursor_lt_of_agrees s h
  induction k with
  | zero =>
      show restoreAt s j = restoreAt s (min (j + 0) s.historyCursor)
      rw [Nat.add_zero, Nat.min_eq_left hj]
  | succ k ih =>
      show redo (redoK k (restoreAt s j)) = _
      rw [ih]
      set m := min (j + k) s.historyCursor with hm
      have hmc : m ≤ s.historyCursor := Nat.min_le_right _ _
      have hml : m < s.history.length := Nat.lt_of_le_of_lt hmc hlt
      unfold redo
      rw [restoreAt_cursor s m hml, restoreAt_history]
      by_cases hme : m = s.history.length - 1
      · rw [if_pos hme]
        have hmceq : m = s.historyCursor := by omega
        have : min (j + (k + 1)) s.historyCursor = m := by omega
        rw [this]
      · rw [if_neg hme]
        have hm1 : m + 1 < s.history.length := by omega
        rw [restoreAt_restoreAt s m (m + 1) hm1]
        have : min (j + (k + 1)) s.historyCursor = m + 1 := by omega
        rw [this]

/-- The undo-redo round trip: from a session at the end of its history,
k undos followed by k redos restore the session bit for bit. -/
theorem undo_redo_roundtrip (s : SessionState) (h : s.AtEnd) (k : Nat) :
    redoK k (undoK k s) = s := by
  obtain ⟨hend, hagree⟩ := h
  rw [undoK_eq_restoreAt s hagree k]
  rw [redoK_eq_restoreAt s hagree hend k (s.historyCursor - k) (Nat.sub_le _ _)]
  have : min (s.historyCursor - k + k) s.historyCursor = s.historyCursor := by omega
  rw [this, restoreAt_self s hagree]

/-- A freshly loaded session sits at the end of its one-snapshot history and
agrees with it. -/
theorem atEnd_loadImage (bm : Bitmap) : (loadImage bm).AtEnd := by
  refine ⟨rfl, ?_⟩
  unfold SessionState.Agrees loadImage
  refine ⟨rfl, rfl, rfl, ?_⟩
  intro d hd
  injection hd with hd2
  rw [← hd2]
  rfl

/-- A commit leaves the session at the end of its history, agreeing with the
snapshot it just pushed. -/
theorem atEnd_commitAndRender (s : SessionState) (doc : ImageDocument)
    (fs : FilterSettings) (ts : List TransformOperation) (rs : ResizeSettings) :
    (commitAndRender s doc fs ts rs).AtEnd := by
  unfold commitAndRender commitSnapshot
  constructor
  · show (s.history.take (s.historyCursor + 1) ++ [_]).length - 1 + 1 = _
    simp
  · unfold SessionState.Agrees
    have hlast : (s.history.take (s.historyCursor + 1) ++
        [(⟨fs, ts, rs, renderPipeline doc.originalBitmap fs ts rs⟩ : HistorySnapshot)])[
          (s.history.take (s.historyCursor + 1) ++
            [(⟨fs, ts, rs, renderPipeline doc.originalBitmap fs ts rs⟩ : HistorySnapshot)]).length - 1]?
        = some ⟨fs, ts, rs, renderPipeline doc.originalBitmap fs ts rs⟩ := by
      rw [List.length_append, List.length_singleton, Nat.add_sub_cancel,
        List.getElem?_concat_length]
    rw [hlast]
    refine ⟨rfl, rfl, rfl, ?_⟩
    intro d hd
    injection hd with hd2
    rw [← hd2]

/-- Running one mutating operation preserves the at-the-end invariant: a
failure leaves the state unchanged and a success commits. -/
theorem atEnd_runMut (s : SessionState) (op : MutOp) (h : s.AtEnd) :
    (runMut s op).AtEnd := by
  unfold runMut mutStep
  by_cases hp : s.isProcessing
  · rw [if_pos hp]
    exact h
  · rw [if_neg hp]
    cases hd : s.document with
    | none => exact h
    | some doc =>
        dsimp only
        cases op with
        | updateFilter tool v => exact atEnd_commitAndRender s doc _ _ _
        | applyTransformOp t => exact atEnd_commitAndRender s doc _ _ _
        | applyResize => exact atEnd_commitAndRender s doc _ _ _
        | applySocialMediaPreset name =>
            dsimp only
            cases lookupPreset name with
            | none => exact h
            | some p => exact atEnd_commitAndRender s doc _ _ _
        | resetFilters => exact atEnd_commitAndRender s doc _ _ _

/-- Running any list of mutating operations preserves the invariant. -/
theorem atEnd_runMuts (s : SessionState) (ops : List MutOp) (h : s.AtEnd) :
    (runMuts s ops).AtEnd := by
  induction ops generalizing s with
  | nil => exact h
  | cons op rest ih => exact ih (runMut s op) (atEnd_runMut s op h)

/-- The non-destructive render invariant of spec section 3: the document keeps
the loaded original bitmap unmutated, the current bitmap is the declarative
pipeline of the live settings over the original, and every history snapshot's
bitmap reference is the pipeline of that snapshot's settings. -/
def RenderInv (orig : Bitmap) (s : SessionState) : Prop :=
  (∀ d, s.document = some d → d.originalBitmap = orig ∧
     d.currentBitmap = renderPipeline orig s.filters s.transforms s.resizeSettings) ∧
  (∀ snap ∈ s.history, snap.bitmapRef =
     renderPipeline orig snap.filters snap.transforms snap.resize)

/-- Loading a valid bitmap establishes the render invariant. -/
theorem renderInv_loadImage (bm : Bitmap) (h : bm.Valid) :
    RenderInv bm (loadImage bm) := by
  constructor
  · intro d hd
    injection hd with hd2
    rw [← hd2]
    exact ⟨rfl, (renderPipeline_default bm h).symm⟩
  · intro snap hs
    have : snap = ⟨neutralFilters, [], nativeResize bm, bm⟩ := by
      simpa [loadImage] using hs
    rw [this]
    exact (renderPipeline_default bm h).symm

/-- Committing a re-render preserves the render invariant. -/
theorem renderInv_commitAndRender (orig : Bitmap) (s : SessionState)
    (doc : ImageDocument) (fs : FilterSettings) (ts : List TransformOperation)
    (rs : ResizeSettings) (hdoc : s.document = some doc)
    (hinv : RenderInv orig s) :
    RenderInv orig (commitAndRender s doc fs ts rs) := by
  have horig : doc.originalBitmap = orig := (hinv.1 doc hdoc).1
  unfold commitAndRender commitSnapshot
  constructor
  · intro d hd
    injection hd with hd2
    rw [← hd2, horig]
    exact ⟨rfl, rfl⟩
  · intro snap hs
    rw [List.mem_append] at hs
    cases hs with
    | inl hmem => exact hinv.2 snap (List.mem_of_mem_take hmem)
    | inr hone =>
        have : snap = ⟨fs, ts, rs, renderPipeline doc.originalBitmap fs ts rs⟩ := by
          simpa using hone
        rw [this, horig]

/-- A restore preserves the render invariant (the restored bitmap reference
is the pipeline of the restored settings, by the history part of the
invariant). -/
theorem renderInv_restoreAt (orig : Bitmap) (s : SessionState) (i : Nat)
    (hinv : RenderInv orig s) : RenderInv orig (restoreAt s i) := by
  cases hg : s.history[i]? with
  | none => rw [restoreAt_none s i hg]; exact hinv
  | some snap =>
      rw [restoreAt_some s i snap hg]
      have hmem : snap ∈ s.history := List.getElem?_mem hg
      constructor
      · intro d hd
        cases hsd : s.document with
        | none => rw [hsd] at hd; exact absurd hd (by simp)
        | some d0 =>
            rw [hsd] at hd
            have hd2 : some (setCurrent snap.bitmapRef d0) = some d := hd
            injection hd2 with hd3
            rw [← hd3]
            exact ⟨(hinv.1 d0 hsd).1, hinv.2 snap hmem⟩
      · exact hinv.2

/-- Every session operation preserves the render invariant. -/
theorem renderInv_runOp (orig : Bitmap) (s : SessionState) (op : SessionOp)
    (hinv : RenderInv orig s) : RenderInv orig (runOp s op) := by
  cases op with
  | mutate m =>
      show RenderInv orig (runMut s m)
      unfold runMut mutStep
      by_cases hp : s.isProcessing
      · rw [if_pos hp]; exact hinv
      · rw [if_neg hp]
        cases hd : s.document with
        | none => exact hinv
        | some doc =>
            dsimp only
            cases m with
            | updateFilter tool v => exact renderInv_commitAndRender orig s doc _ _ _ hd hinv
            | applyTransformOp t => exact renderInv_commitAndRender orig s doc _ _ _ hd hinv
            | applyResize => exact renderInv_commitAndRender orig s doc _ _ _ hd hinv
            | applySocialMediaPreset name =>
                dsimp only
                cases lookupPreset name with
                | none => exact hinv
                | some p => exact renderInv_commitAndRender orig s doc _ _ _ hd hinv
            | resetFilters => exact renderInv_commitAndRender orig s doc _ _ _ hd hinv
  | undoOp =>
      show RenderInv orig (undo s)
      unfold undo
      by_cases h0 : s.historyCursor = 0
      · rw [if_pos h0]; exact hinv
      · rw [if_neg h0]; exact renderInv_restoreAt orig s _ hinv
  | redoOp =>
      show RenderInv orig (redo s)
      unfold redo
      by_cases h0 : s.historyCursor = s.history.length - 1
      · rw [if_pos h0]; exact hinv
      · rw [if_neg h0]; exact renderInv_restoreAt orig s _ hinv
  | selectTool t => exact hinv

/-- Any sequence of session operations preserves the render invariant. -/
theorem renderInv_runOps (orig : Bitmap) (s : SessionState) (ops : List SessionOp)
    (hinv : RenderInv orig s) : RenderInv orig (runOps s ops) := by
  induction ops generalizing s with
  | nil => exact hinv
  | cons op rest ih => exact ih (runOp s op) (renderInv_runOp orig s op hinv)

/-- Every successful mutating operation's new history and cursor are exactly
one `commitSnapshot` of the old ones, with the snapshot recording the newly
installed settings. -/
theorem mutStep_ok_shape (s : SessionState) (m : MutOp) (s' : SessionState)
    (h : mutStep s m = Except.ok s') :
    ∃ snap, (s'.history, s'.historyCursor) =
        commitSnapshot s.history s.historyCursor snap ∧
      snap.filters = s'.filters ∧ snap.transforms = s'.transforms ∧
      snap.resize = s'.resizeSettings := by
  unfold mutStep at h
  by_cases hp : s.isProcessing
  · rw [if_pos hp] at h; simp at h
  · rw [if_neg hp] at h
    cases hd : s.document with
    | none => rw [hd] at h; simp at h
    | some doc =>
        rw [hd] at h
        dsimp only at h
        cases m with
        | updateFilter tool v =>
            injection h with h2
            rw [← h2]
            exact ⟨_, rfl, rfl, rfl, rfl⟩
        | applyTransformOp t =>
            injection h with h2
            rw [← h2]
            exact ⟨_, rfl, rfl, rfl, rfl⟩
        | applyResize =>
            injection h with h2
            rw [← h2]
            exact ⟨_, rfl, rfl, rfl, rfl⟩
        | applySocialMediaPreset name =>
            dsimp only at h
            cases hl : lookupPreset name with
            | none => rw [hl] at h; simp at h
            | some p =>
                rw [hl] at h
                injection h with h2
                rw [← h2]
                exact ⟨_, rfl, rfl, rfl, rfl⟩
        | resetFilters =>
            injection h with h2
            rw [← h2]
            exact ⟨_, rfl, rfl, rfl, rfl⟩

/-- A failed mutating operation leaves the whole session state untouched. -/
theorem runMut_error (s : SessionState) (m : MutOp) (e : EditorError)
    (h : mutStep s m = Except.error e) : runMut s m = s := by
  unfold runMut
  rw [h]

/-- A successful mutating operation's result is what the dispatcher ran. -/
theorem runMut_ok (s : SessionState) (m : MutOp) (s' : SessionState)
    (h : mutStep s m = Except.ok s') : runMut s m = s' := by
  unfold runMut
  rw [h]

/-- After any successful commit the redoable future is empty. -/
theorem canRedo_false_after_ok (s : SessionState) (m : MutOp) (s' : SessionState)
    (h : mutStep s m = Except.ok s') : s'.canRedo = false := by
  obtain ⟨snap, heq, -, -, -⟩ := mutStep_ok_shape s m s' h
  have h1 : s'.history = s.history.take (s.historyCursor + 1) ++ [snap] :=
    congrArg Prod.fst heq
  have h2 : s'.historyCursor =
      (s.history.take (s.historyCursor + 1) ++ [snap]).length - 1 :=
    congrArg Prod.snd heq
  unfold SessionState.canRedo
  rw [h1, h2]
  simp

/-- While processing, the dispatcher rejects every mutating operation. -/
theorem mutStep_processing (s : SessionState) (m : MutOp)
    (h : s.isProcessing = true) :
    mutStep s m = Except.error EditorError.operationInProgress := by
  unfold mutStep
  rw [if_pos h]

/-- The height of a resized bitmap is the resolved target height. -/
theorem resizeBitmap_height (bm : Bitmap) (rs : ResizeSettings) :
    (resizeBitmap bm rs).height = (resolveResize rs bm.width bm.height).2 := by
  simp [resizeBitmap, Bitmap.height]

/-- The width of a resized bitmap is the resolved target width, provided the
target height is positive (an empty bitmap has width 0). -/
theorem resizeBitmap_width (bm : Bitmap) (rs : ResizeSettings)
    (h : 0 < (resolveResize rs bm.width bm.height).2) :
    (resizeBitmap bm rs).width = (resolveResize rs bm.width bm.height).1 := by
  simp only [resizeBitmap]
  obtain ⟨n, hn⟩ := Nat.exists_eq_succ_of_ne_zero (Nat.pos_iff_ne_zero.mp h)
  rw [hn, List.range_succ_eq_map, List.map_cons]
  unfold Bitmap.width
  simp

/-- Exact pixel settings with the aspect lock off resolve to themselves. -/
theorem resolveResize_exact (w h srcW srcH : Nat) :
    resolveResize ⟨w, h, false, SizeUnit.pixel⟩ srcW srcH = (w, h) := by
  simp [resolveResize]

/-- The pipeline output dimensions equal an exact pixel resize target when the
target height is positive. -/
theorem renderPipeline_dims (orig : Bitmap) (fs : FilterSettings)
    (ts : List TransformOperation) (w h : Nat) (hh : 0 < h) :
    (renderPipeline orig fs ts ⟨w, h, false, SizeUnit.pixel⟩).width = w ∧
    (renderPipeline orig fs ts ⟨w, h, false, SizeUnit.pixel⟩).height = h := by
  unfold renderPipeline
  set inner := applyTransforms (applyFilters orig fs) ts
  constructor
  · rw [resizeBitmap_width inner _ (by rw [resolveResize_exact]; exact hh)]
    rw [resolveResize_exact]
  · rw [resizeBitmap_height inner _]
    rw [resolveResize_exact]

/-- Every entry of the static preset table has positive dimensions. -/
theorem socialMediaPresets_pos :
    ∀ p ∈ socialMediaPresets, 0 < p.width ∧ 0 < p.height := by
  decide

/-- C1: for every loaded document and every reachable session state, the
original bitmap is never mutated after load and the current (rendered) bitmap
equals the pure composition resize(transform-sequence(filters(original)))
recomputed from the original plus the active filter, transform and resize
settings; in this functional embedding no operation mutates a running pixel
buffer in place, every step rebuilds through `renderPipeline`. -/
theorem spec_c1_nondestructive_render (bm : Bitmap) (h : bm.Valid)
    (ops : List SessionOp) (d : ImageDocument)
    (hd : (runOps (loadImage bm) ops).document = some d) :
    d.originalBitmap = bm ∧
    d.currentBitmap = renderPipeline bm (runOps (loadImage bm) ops).filters
      (runOps (loadImage bm) ops).transforms
      (runOps (loadImage bm) ops).resizeSettings :=
  (renderInv_runOps bm (loadImage bm) ops (renderInv_loadImage bm h)).1 d hd

/-- Concrete two-by-one bitmap exercising the claims. -/
def smallBitmap : Bitmap := ⟨[[⟨10, 20, 30⟩, ⟨200, 250, 5⟩]]⟩

/-- Concrete session operations: one filter edit, one transform, one undo. -/
def smallOps : List SessionOp :=
  [SessionOp.mutate (MutOp.updateFilter ToolType.brightness 60),
   SessionOp.mutate (MutOp.applyTransformOp TransformOperation.flipHorizontal),
   SessionOp.undoOp]

/-- The document reached by `smallOps` (fallback never taken). -/
def smallDoc : ImageDocument :=
  ((runOps (loadImage smallBitmap) smallOps).document).getD ⟨⟨[]⟩, ⟨[]⟩⟩

theorem spec_c1_nondestructive_render_witness :
    Bitmap.Valid smallBitmap ∧
    (runOps (loadImage smallBitmap) smallOps).document = some smallDoc ∧
    smallDoc.originalBitmap = smallBitmap :=
  ⟨by decide, by decide,
   (spec_c1_nondestructive_render smallBitmap (by decide) smallOps smallDoc
     (by decide)).1⟩

/-- C2: for every session reached by committing N mutating operations and
every k at most N, k undos followed by k redos yield a session state
bit-identical to the state after the original N operations. -/
theorem spec_c2_undo_redo_roundtrip (bm : Bitmap) (ops : List MutOp) (k : Nat)
    (_hk : k ≤ ops.length) :
    redoK k (undoK k (runMuts (loadImage bm) ops)) = runMuts (loadImage bm) ops :=
  undo_redo_roundtrip (runMuts (loadImage bm) ops)
    (atEnd_runMuts (loadImage bm) ops (atEnd_loadImage bm)) k

/-- Concrete mutating operations for the round-trip witness. -/
def smallMuts : List MutOp :=
  [MutOp.updateFilter ToolType.contrast 70,
   MutOp.applyTransformOp TransformOperation.flipVertical]

theorem spec_c2_undo_redo_roundtrip_witness :
    2 ≤ smallMuts.length ∧
    redoK 2 (undoK 2 (runMuts (loadImage smallBitmap) smallMuts)) =
      runMuts (loadImage smallBitmap) smallMuts :=
  ⟨by decide, spec_c2_undo_redo_roundtrip smallBitmap smallMuts 2 (by decide)⟩

/-- C3: commit truncates the history after the cursor, appends the snapshot,
and advances the cursor to the new end; consequently immediately after any
successful commit (in particular one following an undo) `canRedo` is false. -/
theorem spec_c3_commit_truncation (hist : List HistorySnapshot) (c : Nat)
    (snap : HistorySnapshot) (h : c < hist.length) :
    (commitSnapshot hist c snap).1 = hist.take (c + 1) ++ [snap] ∧
    (commitSnapshot hist c snap).2 = c + 1 ∧
    (∀ s : SessionState, ∀ m : MutOp, ∀ s' : SessionState,
      mutStep s m = Except.ok s' → s'.canRedo = false) := by
  refine ⟨rfl, ?_, canRedo_false_after_ok⟩
  unfold commitSnapshot
  simp [List.length_take]
  omega

theorem spec_c3_commit_truncation_witness :
    (0 : Nat) < [(⟨neutralFilters, [], ⟨1, 1, false, SizeUnit.pixel⟩, ⟨[]⟩⟩ : HistorySnapshot)].length ∧
    (commitSnapshot [⟨neutralFilters, [], ⟨1, 1, false, SizeUnit.pixel⟩, ⟨[]⟩⟩] 0
      ⟨neutralFilters, [], ⟨2, 2, false, SizeUnit.pixel⟩, ⟨[]⟩⟩).2 = 1 :=
  ⟨by decide,
   (spec_c3_commit_truncation [⟨neutralFilters, [], ⟨1, 1, false, SizeUnit.pixel⟩, ⟨[]⟩⟩] 0
     ⟨neutralFilters, [], ⟨2, 2, false, SizeUnit.pixel⟩, ⟨[]⟩⟩ (by decide)).2.1⟩

/-- C4: a failed mutating operation leaves history, document and all settings
exactly as they were (no partial commit); a successful one commits exactly
once, its new history and cursor being one `commitSnapshot` of the old. -/
theorem spec_c4_commit_exactly_once (s : SessionState) (m : MutOp) :
    (∀ e, mutStep s m = Except.error e → runMut s m = s) ∧
    (∀ s', mutStep s m = Except.ok s' →
      runMut s m = s' ∧
      ∃ snap, (s'.history, s'.historyCursor) =
          commitSnapshot s.history s.historyCursor snap ∧
        snap.filters = s'.filters ∧ snap.transforms = s'.transforms ∧
        snap.resize = s'.resizeSettings) :=
  ⟨fun e he => runMut_error s m e he,
   fun s' hok => ⟨runMut_ok s m s' hok, mutStep_ok_shape s m s' hok⟩⟩

theorem spec_c4_commit_exactly_once_witness :
    mutStep (loadImage smallBitmap) (MutOp.applySocialMediaPreset "No Such Preset")
      = Except.error EditorError.unknownPreset ∧
    runMut (loadImage smallBitmap) (MutOp.applySocialMediaPreset "No Such Preset")
      = loadImage smallBitmap :=
  ⟨by rfl,
   (spec_c4_commit_exactly_once (loadImage smallBitmap)
     (MutOp.applySocialMediaPreset "No Such Preset")).1
     EditorError.unknownPreset (by rfl)⟩

/-- C5: while `isProcessing` is true every mutating call is rejected with
`OperationInProgressError` (never queued) and the session state is left
completely unchanged. -/
theorem spec_c5_reject_while_processing (s : SessionState) (m : MutOp)
    (h : s.isProcessing = true) :
    mutStep s m = Except.error EditorError.operationInProgress ∧
    runMut s m = s :=
  ⟨mutStep_processing s m h,
   runMut_error s m EditorError.operationInProgress (mutStep_processing s m h)⟩

/-- A session frozen in the middle of an asynchronous operation. -/
def processingState : SessionState :=
  { loadImage smallBitmap with isProcessing := true }

theorem spec_c5_reject_while_processing_witness :
    processingState.isProcessing = true ∧
    mutStep processingState (MutOp.resetFilters)
      = Except.error EditorError.operationInProgress ∧
    runMut processingState (MutOp.resetFilters) = processingState :=
  ⟨by decide,
   (spec_c5_reject_while_processing processingState MutOp.resetFilters rfl).1,
   (spec_c5_reject_while_processing processingState MutOp.resetFilters rfl).2⟩

/-- C6: `applyFilters` with every filter value equal to 50 returns a bitmap
pixel-identical to the (valid) source bitmap; it never mutates its argument,
being a pure function of it in this embedding. -/
theorem spec_c6_filter_neutrality (bm : Bitmap) (fs : FilterSettings)
    (hv : bm.Valid) (hb : fs.brightness = 50) (hc : fs.contrast = 50)
    (hs : fs.saturation = 50) :
    applyFilters bm fs = bm := by
  have : fs = neutralFilters := by
    cases fs
    simp only [neutralFilters] at *
    rw [hb, hc, hs] at *
  rw [this]
  exact applyFilters_neutral bm hv

theorem spec_c6_filter_neutrality_witness :
    Bitmap.Valid smallBitmap ∧
    applyFilters smallBitmap ⟨50, 50, 50⟩ = smallBitmap :=
  ⟨by decide,
   spec_c6_filter_neutrality smallBitmap ⟨50, 50, 50⟩ (by decide) rfl rfl rfl⟩

/-- C8: `applySocialMediaPreset(name)` fails with `UnknownPresetError` when
the name is absent from the static preset table; otherwise it installs the
preset's exact width and height as the resize settings and re-renders, so the
resulting document dimensions equal the preset dimensions exactly. -/
theorem spec_c8_preset_exactness (s : SessionState) (doc : ImageDocument)
    (name : String) (hp : s.isProcessing = false) (hd : s.document = some doc) :
    (lookupPreset name = none →
      mutStep s (MutOp.applySocialMediaPreset name)
        = Except.error EditorError.unknownPreset) ∧
    (∀ p, lookupPreset name = some p →
      ∃ s', mutStep s (MutOp.applySocialMediaPreset name) = Except.ok s' ∧
        s'.resizeSettings.width = p.width ∧
        s'.resizeSettings.height = p.height ∧
        ∀ d, s'.document = some d →
          d.currentBitmap.width = p.width ∧
          d.currentBitmap.height = p.height) := by
  have hstep : mutStep s (MutOp.applySocialMediaPreset name) =
      match lookupPreset name with
      | none => Except.error EditorError.unknownPreset
      | some p =>
          Except.ok (commitAndRender s doc s.filters s.transforms
            ⟨p.width, p.height, false, SizeUnit.pixel⟩) := by
    unfold mutStep
    rw [if_neg (by rw [hp]; exact Bool.false_ne_true), hd]
  constructor
  · intro hnone
    rw [hstep, hnone]
  · intro p hsome
    have hpos := socialMediaPresets_pos p (List.mem_of_find?_eq_some hsome)
    refine ⟨commitAndRender s doc s.filters s.transforms
      ⟨p.width, p.height, false, SizeUnit.pixel⟩, by rw [hstep, hsome], rfl, rfl, ?_⟩
    intro d hdoc
    injection hdoc with hd2
    rw [← hd2]
    show (renderPipeline doc.originalBitmap s.filters s.transforms
      ⟨p.width, p.height, false, SizeUnit.pixel⟩).width = p.width ∧
      (renderPipeline doc.originalBitmap s.filters s.transforms
        ⟨p.width, p.height, false, SizeUnit.pixel⟩).height = p.height
    exact renderPipeline_dims doc.originalBitmap s.filters s.transforms
      p.width p.height hpos.2

theorem spec_c8_preset_exactness_witness :
    (loadImage smallBitmap).isProcessing = false ∧
    lookupPreset "Instagram Post" = some ⟨"Instagram Post", 1080, 1080⟩ ∧
    (∃ s', mutStep (loadImage smallBitmap)
          (MutOp.applySocialMediaPreset "Instagram Post") = Except.ok s' ∧
        s'.resizeSettings.width = 1080 ∧
        s'.resizeSettings.height = 1080 ∧
        ∀ d, s'.document = some d →
          d.currentBitmap.width = 1080 ∧ d.currentBitmap.height = 1080) :=
  ⟨rfl, by rfl,
   (spec_c8_preset_exactness (loadImage smallBitmap) ⟨smallBitmap, smallBitmap⟩
     "Instagram Post" rfl rfl).2 ⟨"Instagram Post", 1080, 1080⟩ (by rfl)⟩

/-- C9: in the export-settings handler of `image-editor.tsx`, the quality
value appears in the notification description exactly when the format is
jpeg (webp, although lossy, omits it), while a set (positive) target file
size is reported for every format. -/
theorem spec_c9_export_description_quality (es : ExportSettings) :
    (DescPart.quality es.quality ∈ exportDescriptionParts es ↔
      es.format = ExportFormat.jpeg) ∧
    (∀ q, DescPart.quality q ∈ exportDescriptionParts es → q = es.quality) ∧
    (∀ n, es.targetFileSize = some n → 0 < n →
      DescPart.targetSize n es.fileSizeUnit ∈ exportDescriptionParts es) := by
  unfold exportDescriptionParts
  refine ⟨?_, ?_, ?_⟩
  · constructor
    · intro hmem
      by_contra hne
      rw [if_neg hne] at hmem
      rcases List.mem_append.mp hmem with h1 | h2
      · rcases List.mem_append.mp h1 with h3 | h4
        · simp at h3
        · simp at h4
      · by_cases ht : targetSizeTruthy es.targetFileSize = true
        · rw [if_pos ht] at h2; simp at h2
        · rw [if_neg ht] at h2; simp at h2
    · intro hj
      rw [if_pos hj]
      simp
  · intro q hmem
    by_cases hj : es.format = ExportFormat.jpeg
    · rw [if_pos hj] at hmem
      rcases List.mem_append.mp hmem with h1 | h2
      · rcases List.mem_append.mp h1 with h3 | h4
        · simp at h3
        · simp at h4
          exact h4
      · by_cases ht : targetSizeTruthy es.targetFileSize = true
        · rw [if_pos ht] at h2; simp at h2
        · rw [if_neg ht] at h2; simp at h2
    · rw [if_neg hj] at hmem
      rcases List.mem_append.mp hmem with h1 | h2
      · rcases List.mem_append.mp h1 with h3 | h4
        · simp at h3
        · simp at h4
      · by_cases ht : targetSizeTruthy es.targetFileSize = true
        · rw [if_pos ht] at h2; simp at h2
        · rw [if_neg ht] at h2; simp at h2
  · intro n hset hpos
    have ht : targetSizeTruthy es.targetFileSize = true := by
      rw [hset]
      unfold targetSizeTruthy
      simp
      omega
    rw [if_pos ht, hset]
    simp

theorem spec_c9_export_description_quality_witness :
    ((⟨ExportFormat.webp, 80, some 200, FileSizeUnit.kb⟩ : ExportSettings).targetFileSize
      = some 200) ∧
    DescPart.targetSize 200 FileSizeUnit.kb ∈
      exportDescriptionParts ⟨ExportFormat.webp, 80, some 200, FileSizeUnit.kb⟩ :=
  ⟨rfl,
   (spec_c9_export_description_quality
     ⟨ExportFormat.webp, 80, some 200, FileSizeUnit.kb⟩).2.2 200 rfl (by decide)⟩

/-- C10: the undo, redo and transform handlers of `image-editor.tsx` emit
their success notification unconditionally: the toast is a constant of the
handler (for transform, of the operation name alone), independent of the
session state, of `canUndo`/`canRedo` and of whether a document is loaded. -/
theorem spec_c10_unconditional_toasts (s t : SessionState)
    (op : TransformOperation) :
    (handleUndo s).2.title = "Undone" ∧
    (handleRedo s).2.title = "Redone" ∧
    (handleTransform s op).2.title = "Transform applied" ∧
    (handleUndo s).2 = (handleUndo t).2 ∧
    (handleRedo s).2 = (handleRedo t).2 ∧
    (handleTransform s op).2 = (handleTransform t op).2 :=
  ⟨rfl, rfl, rfl, rfl, rfl, rfl⟩

/-- Full specification of the quality bisection: it encodes at most `fuel`
more times, keeps every attempted quality inside the incoming [lo, hi]
bounds (hence inside [1, 100]), and its chosen result is an actual encode at
an attempted quality that is either inside the tolerance band or the closest
to the target among all attempts. -/
theorem searchQuality_spec (enc : Nat → Nat) (target : Nat) (fuel : Nat) :
    ∀ (lo hi : Nat) (best : Option (Nat × Nat)) (tried : List Nat)
      (res : Option (Nat × Nat)) (out : List Nat),
    1 ≤ lo → hi ≤ 100 →
    (∀ q ∈ tried, 1 ≤ q ∧ q ≤ 100) →
    (match best with
     | none => tried = []
     | some qs => qs.2 = enc qs.1 ∧ qs.1 ∈ tried ∧
         ∀ q ∈ tried, natDist qs.2 target ≤ natDist (enc q) target) →
    searchQuality enc target fuel lo hi best tried = (res, out) →
    out.length ≤ tried.length + fuel ∧
    (∀ q ∈ out, 1 ≤ q ∧ q ≤ 100) ∧
    (match res with
     | none => out = tried ∧ best = none
     | some qs => qs.2 = enc qs.1 ∧ qs.1 ∈ out ∧
         (withinTolerance qs.2 target = true ∨
          ∀ q ∈ out, natDist qs.2 target ≤ natDist (enc q) target)) := by
  induction fuel with
  | zero =>
      intro lo hi best tried res out h1 h2 h3 h4 heq
      simp only [searchQuality] at heq
      injection heq with e1 e2
      subst e1
      subst e2
      refine ⟨Nat.le_add_right _ _, h3, ?_⟩
      cases best with
      | none => exact ⟨rfl, rfl⟩
      | some qs => exact ⟨h4.1, h4.2.1, Or.inr h4.2.2⟩
  | succ fuel ih =>
      intro lo hi best tried res out h1 h2 h3 h4 heq
      simp only [searchQuality] at heq
      by_cases hgt : lo > hi
      · rw [if_pos hgt] at heq
        injection heq with e1 e2
        subst e1
        subst e2
        refine ⟨Nat.le_add_right _ _, h3, ?_⟩
        cases best with
        | none => exact ⟨rfl, rfl⟩
        | some qs => exact ⟨h4.1, h4.2.1, Or.inr h4.2.2⟩
      · rw [if_neg hgt] at heq
        have hlh : lo ≤ hi := Nat.le_of_not_lt hgt
        have hmid1 : 1 ≤ (lo + hi) / 2 := by omega
        have hmid2 : (lo + hi) / 2 ≤ 100 := by omega
        have hmidhi : (lo + hi) / 2 ≤ hi := by omega
        have hbounds' : ∀ q ∈ tried ++ [(lo + hi) / 2], 1 ≤ q ∧ q ≤ 100 := by
          intro q hq
          rcases List.mem_append.mp hq with hq1 | hq2
          · exact h3 q hq1
          · have : q = (lo + hi) / 2 := by simpa using hq2
            omega
        have hmidmem : (lo + hi) / 2 ∈ tried ++ [(lo + hi) / 2] := by simp
        have hbv' :
            (closerAttempt target ((lo + hi) / 2, enc ((lo + hi) / 2)) best).2
              = enc (closerAttempt target ((lo + hi) / 2, enc ((lo + hi) / 2)) best).1 ∧
            (closerAttempt target ((lo + hi) / 2, enc ((lo + hi) / 2)) best).1
              ∈ tried ++ [(lo + hi) / 2] ∧
            ∀ q ∈ tried ++ [(lo + hi) / 2],
              natDist (closerAttempt target ((lo + hi) / 2, enc ((lo + hi) / 2)) best).2 target
                ≤ natDist (enc q) target := by
          cases best with
          | none =>
              have htr : tried = [] := h4
              unfold closerAttempt
              refine ⟨rfl, hmidmem, ?_⟩
              intro q hq
              rw [htr] at hq
              have : q = (lo + hi) / 2 := by simpa using hq
              rw [this]
          | some b =>
              unfold closerAttempt
              dsimp only
              by_cases hcl : natDist (enc ((lo + hi) / 2)) target ≤ natDist b.2 target
              · rw [if_pos hcl]
                refine ⟨rfl, hmidmem, ?_⟩
                intro q hq
                rcases List.mem_append.mp hq with hq1 | hq2
                · exact Nat.le_trans hcl (h4.2.2 q hq1)
                · have : q = (lo + hi) / 2 := by simpa using hq2
                  rw [this]
              · rw [if_neg hcl]
                refine ⟨h4.1, List.mem_append_left _ h4.2.1, ?_⟩
                intro q hq
                rcases List.mem_append.mp hq with hq1 | hq2
                · exact h4.2.2 q hq1
                · have : q = (lo + hi) / 2 := by simpa using hq2
                  rw [this]
                  exact Nat.le_of_lt (Nat.lt_of_not_le hcl)
        by_cases hwt : withinTolerance (enc ((lo + hi) / 2)) target = true
        · rw [if_pos hwt] at heq
          injection heq with e1 e2
          subst e1
          subst e2
          refine ⟨by simp only [List.length_append, List.length_cons, List.length_nil]; omega,
            hbounds', ?_⟩
          exact ⟨rfl, hmidmem, Or.inl hwt⟩
        · rw [if_neg hwt] at heq
          by_cases hsz : enc ((lo + hi) / 2) > target
          · rw [if_pos hsz] at heq
            have := ih lo ((lo + hi) / 2 - 1)
              (some (closerAttempt target ((lo + hi) / 2, enc ((lo + hi) / 2)) best))
              (tried ++ [(lo + hi) / 2]) res out h1 (by omega) hbounds' hbv' heq
            refine ⟨by have hlen := this.1; simp only [List.length_append, List.length_cons, List.length_nil] at hlen; omega, this.2.1, ?_⟩
            cases res with
            | none => exact absurd this.2.2.2 (by simp)
            | some qs => exact this.2.2
          · rw [if_neg hsz] at heq
            have := ih ((lo + hi) / 2 + 1) hi
              (some (closerAttempt target ((lo + hi) / 2, enc ((lo + hi) / 2)) best))
              (tried ++ [(lo + hi) / 2]) res out (by omega) h2 hbounds' hbv' heq
            refine ⟨by have hlen := this.1; simp only [List.length_append, List.length_cons, List.length_nil] at hlen; omega, this.2.1, ?_⟩
            cases res with
            | none => exact absurd this.2.2.2 (by simp)
            | some qs => exact this.2.2

/-- C7: with a lossy format and a set target size, `applyExportSettings`
performs a bounded search over quality in [1, 100] ending after at most
`maxEncodeAttempts` encodes, and returns an actual encode that is either
within the fixed tolerance band of the target in bytes (no warning) or the
closest achievable attempt together with the non-fatal
`TargetSizeUnmetWarning` flag. -/
theorem spec_c7_export_size_search (enc : Nat → Nat) (es : ExportSettings)
    (t : Nat) (hl : es.format.isLossy = true) (ht : es.targetFileSize = some t)
    (hq : 1 ≤ es.quality ∧ es.quality ≤ 100) :
    (applyExportSettings enc es).tried.length ≤ maxEncodeAttempts ∧
    (∀ q ∈ (applyExportSettings enc es).tried, 1 ≤ q ∧ q ≤ 100) ∧
    (applyExportSettings enc es).size
      = enc (applyExportSettings enc es).quality ∧
    (applyExportSettings enc es).quality ∈ (applyExportSettings enc es).tried ∧
    ((applyExportSettings enc es).warning = false ∧
        withinTolerance (applyExportSettings enc es).size
          (toBytes t es.fileSizeUnit) = true ∨
      (applyExportSettings enc es).warning = true ∧
        ∀ q ∈ (applyExportSettings enc es).tried,
          natDist (applyExportSettings enc es).size (toBytes t es.fileSizeUnit)
            ≤ natDist (enc q) (toBytes t es.fileSizeUnit)) := by
  have happ : applyExportSettings enc es =
      match searchQuality enc (toBytes t es.fileSizeUnit) maxEncodeAttempts
          1 100 none [] with
      | (some (q, sz), tried) =>
          ⟨sz, q, ! withinTolerance sz (toBytes t es.fileSizeUnit), tried⟩
      | (none, _) =>
          ⟨enc es.quality, es.quality, true, [es.quality]⟩ := by
    unfold applyExportSettings
    rw [ht]
    dsimp only
    rw [if_pos hl]
  rcases hres : searchQuality enc (toBytes t es.fileSizeUnit) maxEncodeAttempts
      1 100 none [] with ⟨res, out⟩
  rw [hres] at happ
  cases res with
  | none =>
      dsimp only at happ
      rw [happ]
      refine ⟨?_, ?_, rfl, ?_, Or.inr ⟨rfl, ?_⟩⟩
      · show (1 : Nat) ≤ maxEncodeAttempts
        decide
      · intro q hmem
        have : q = es.quality := by simpa using hmem
        rw [this]
        exact hq
      · show es.quality ∈ [es.quality]
        simp
      · intro q hmem
        have : q = es.quality := by simpa using hmem
        rw [this]
  | some qs =>
      rcases qs with ⟨q, sz⟩
      dsimp only at happ
      have hspec := searchQuality_spec enc (toBytes t es.fileSizeUnit)
        maxEncodeAttempts 1 100 none [] (some (q, sz)) out (by decide) (by decide)
        (by intro x hx; exact absurd hx (by simp)) rfl hres
      have hlen := hspec.1
      have hbds := hspec.2.1
      have hsz2 : sz = enc q := hspec.2.2.1
      have hmem : q ∈ out := hspec.2.2.2.1
      have hdisj : withinTolerance sz (toBytes t es.fileSizeUnit) = true ∨
          ∀ x ∈ out, natDist sz (toBytes t es.fileSizeUnit)
            ≤ natDist (enc x) (toBytes t es.fileSizeUnit) := hspec.2.2.2.2
      rw [happ]
      refine ⟨by simpa using hlen, hbds, hsz2, hmem, ?_⟩
      by_cases hwt : withinTolerance sz (toBytes t es.fileSizeUnit) = true
      · exact Or.inl ⟨by rw [hwt]; rfl, hwt⟩
      · refine Or.inr ⟨by rw [Bool.eq_false_iff.mpr hwt]; rfl, ?_⟩
        cases hdisj with
        | inl hin => exact absurd hin hwt
        | inr hmin => exact hmin

/-- Concrete export settings targeting 200 KB on jpeg. -/
def jpegTargetSettings : ExportSettings :=
  ⟨ExportFormat.jpeg, 80, some 200, FileSizeUnit.kb⟩

/-- A concrete monotone encoder model: one thousand bytes per quality step. -/
def linearEncoder : Nat → Nat := fun q => 1000 * q

theorem spec_c7_export_size_search_witness :
    jpegTargetSettings.format.isLossy = true ∧
    jpegTargetSettings.targetFileSize = some 200 ∧
    (applyExportSettings linearEncoder jpegTargetSettings).tried.length
      ≤ maxEncodeAttempts ∧
    (applyExportSettings linearEncoder jpegTargetSettings).size
      = linearEncoder (applyExportSettings linearEncoder jpegTargetSettings).quality :=
  ⟨rfl, rfl,
   (spec_c7_export_size_search linearEncoder jpegTargetSettings 200 rfl rfl
     ⟨by decide, by decide⟩).1,
   (spec_c7_export_size_search linearEncoder jpegTargetSettings 200 rfl rfl
     ⟨by decide, by decide⟩).2.2.1⟩
